import Mathlib

/-!
Verification of the line-oriented file mutation engine and changelog
subsystem of `src/file_manager.c`.

The file system is modelled as a map from file names to optional byte
contents (a present file is a list of characters).  Each C function is
translated into a pure Lean function on this model; the character-level
streaming loops of `insertLineInFile`, `deleteLineFromFile` and
`showLineFromFile` are translated verbatim, including the exact way the
C code threads `current_line` (the counter is bumped when the *next*
character is fetched, so a line's terminating newline is processed under
the following line's number, and the very first character of the file is
never examined by the increment).
-/

namespace FileManager

/-- Error kinds, one per distinct failure path of the C code
(identified by the error message printed at that path). -/
inductive FMError where
  | notFound
  | alreadyExists
  | lineOutOfRange
  | ioError
  deriving DecidableEq, Repr

/-- Result of an operation: `SUCCESS` or `FAILURE` with its error kind. -/
inductive FMResult where
  | success
  | failure (e : FMError)
  deriving DecidableEq, Repr

/-- A file system: map from file names to contents (`none` = absent). -/
def FS : Type := String → Option (List Char)

/-- Write (or delete, with `none`) a file in the file system. -/
def setFile (fs : FS) (name : String) (contents : Option (List Char)) : FS :=
  fun other => if other = name then contents else fs other

/-- `TEMP_FILE_NAME`: the fixed scratch-file name (`#define TEMP_FILE_NAME "file.tmp"`). -/
def TEMP_FILE_NAME : String := "file.tmp"

/-- `fileExists`: `!access(file_name, F_OK)`. -/
def fileExists (fs : FS) (name : String) : Bool :=
  (fs name).isSome

/-- `getNumberOfLinesInFile`: scan the whole stream counting newline
characters. -/
def getNumberOfLinesInFile : List Char → Nat
  | [] => 0
  | c :: rest => (if c = '\n' then 1 else 0) + getNumberOfLinesInFile rest

/-- `validateLineNumber`: `line_number > line_count || line_number < 1`
is rejected. -/
def validateLineNumber (cs : List Char) (lineNumber : Int) : Bool :=
  if lineNumber > (getNumberOfLinesInFile cs : Int) ∨ lineNumber < 1 then
    false
  else
    true

/-- The `current_line` update of the C loops: after processing a
character, the next character is fetched and, if it is a newline,
`current_line` is incremented *before* that character is processed.
`insNext l rest` is the line number under which the head of `rest`
will be processed, given that the previous character was processed
under a state that left the counter at `l`. -/
def insNext (lineNumber : Int) : List Char → Int
  | [] => lineNumber
  | c :: _ => if c = '\n' then lineNumber + 1 else lineNumber

/-- The copy loop of `insertLineInFile` (lines 403-429 of the C file):
characters processed under a line number other than `lineNumber` are
copied; when `current_line` first equals `lineNumber`, the current
character is consumed without being copied and `'\n'` (unless
`lineNumber = 1`), the new content and `'\n'` are emitted instead. -/
def insertCopyAux (lineNumber : Int) (content : List Char) :
    Int → List Char → List Char
  | _, [] => []
  | currentLine, c :: rest =>
    if currentLine ≠ lineNumber then
      c :: insertCopyAux lineNumber content (insNext currentLine rest) rest
    else
      (if lineNumber ≠ 1 then ['\n'] else []) ++ content ++ '\n' ::
        insertCopyAux lineNumber content (insNext (currentLine + 1) rest) rest

/-- The copy loop of `deleteLineFromFile` (lines 526-539 of the C file):
characters processed under line number `lineNumber` are dropped, all
others are copied. -/
def deleteCopyAux (lineNumber : Int) : Int → List Char → List Char
  | _, [] => []
  | currentLine, c :: rest =>
    if currentLine ≠ lineNumber then
      c :: deleteCopyAux lineNumber (insNext currentLine rest) rest
    else
      deleteCopyAux lineNumber (insNext currentLine rest) rest

/-- The display loop of `showLineFromFile` (lines 476-490 of the C
file): characters processed under line number `lineNumber` that are not
newlines are collected. -/
def showLineAux (lineNumber : Int) : Int → List Char → List Char
  | _, [] => []
  | currentLine, c :: rest =>
    if currentLine = lineNumber ∧ c ≠ '\n' then
      c :: showLineAux lineNumber (insNext currentLine rest) rest
    else
      showLineAux lineNumber (insNext currentLine rest) rest

/-- The shared commit tail of the two rewrite operations (delete the
original file, then rename the scratch file onto the original name;
on a failed delete the scratch file is cleaned up). -/
def commitRewrite (fs : FS) (fileName : String) (out : List Char) :
    FS × FMResult :=
  let fs1 := setFile fs TEMP_FILE_NAME (some out)
  match fs1 fileName with
  | none => (setFile fs1 TEMP_FILE_NAME none, FMResult.failure FMError.ioError)
  | some _ =>
    let fs2 := setFile fs1 fileName none
    match fs2 TEMP_FILE_NAME with
    | none => (fs2, FMResult.failure FMError.ioError)
    | some v =>
      (setFile (setFile fs2 TEMP_FILE_NAME none) fileName (some v),
        FMResult.success)

/-- `createFile`: fails if the file exists, otherwise creates it empty. -/
def createFile (fs : FS) (fileName : String) : FS × FMResult :=
  if fileExists fs fileName then
    (fs, FMResult.failure FMError.alreadyExists)
  else
    (setFile fs fileName (some []), FMResult.success)

/-- `getFileContents`: the full byte content of an open file. -/
def getFileContents (cs : List Char) : List Char := cs

/-- `copyFile`: fails if the destination exists; then opens the source
(failing if it is missing, before anything is created); otherwise
creates the destination and writes the source's contents into it. -/
def copyFile (fs : FS) (sourceFileName newFileName : String) :
    FS × FMResult :=
  if fileExists fs newFileName then
    (fs, FMResult.failure FMError.alreadyExists)
  else
    match fs sourceFileName with
    | none => (fs, FMResult.failure FMError.notFound)
    | some cs => (setFile fs newFileName (some (getFileContents cs)), FMResult.success)

/-- `appendLineToFile`: fails if the file does not exist; otherwise
appends the content followed by a single newline. -/
def appendLineToFile (fs : FS) (fileName : String) (content : List Char) :
    FS × FMResult :=
  match fs fileName with
  | none => (fs, FMResult.failure FMError.notFound)
  | some cs =>
    (setFile fs fileName (some (cs ++ content ++ ['\n'])), FMResult.success)

/-- `insertLineInFile`: open the source for reading, validate the line
number inline (lines 391-396), then rewrite through the scratch file
and commit. -/
def insertLineInFile (fs : FS) (fileName : String) (content : List Char)
    (lineNumber : Int) : FS × FMResult :=
  match fs fileName with
  | none => (fs, FMResult.failure FMError.notFound)
  | some cs =>
    if lineNumber > (getNumberOfLinesInFile cs : Int) ∨ lineNumber < 1 then
      (fs, FMResult.failure FMError.lineOutOfRange)
    else
      commitRewrite fs fileName (insertCopyAux lineNumber content 1 cs)

/-- `deleteLineFromFile`: the scratch file is opened for writing (hence
created/truncated) *before* the source handle and line number are
checked (lines 516-524); then the rewrite is committed. -/
def deleteLineFromFile (fs : FS) (fileName : String) (lineNumber : Int) :
    FS × FMResult :=
  let fs1 := setFile fs TEMP_FILE_NAME (some [])
  match fs1 fileName with
  | none => (fs1, FMResult.failure FMError.notFound)
  | some cs =>
    if validateLineNumber cs lineNumber then
      commitRewrite fs1 fileName (deleteCopyAux lineNumber 1 cs)
    else
      (fs1, FMResult.failure FMError.lineOutOfRange)

/-- `showLineFromFile`: validate, then collect and print the characters
of the requested line. Returns the printed characters. -/
def showLineFromFile (fs : FS) (fileName : String) (lineNumber : Int) :
    FMResult × List Char :=
  match fs fileName with
  | none => (FMResult.failure FMError.notFound, [])
  | some cs =>
    if validateLineNumber cs lineNumber then
      (FMResult.success, showLineAux lineNumber 1 cs)
    else
      (FMResult.failure FMError.lineOutOfRange, [])

/-- `getChangelogFileName`: the file name with `".changelog"` appended. -/
def getChangelogFileName (fileName : String) : String :=
  fileName ++ ".changelog"

/-- The six fixed action labels (`action_strings` in
`addActionToChangelog`). -/
def actionStrings : List String :=
  ["Inserted line", "Appended line", "Deleted line", "Created file",
    "Read File", "Read Line"]

/-- The audit line formatted by `addActionToChangelog`
(`sprintf(changelog_string, "[%s] Number of lines after action: %d", ...)`). -/
def changelogLine (action : Nat) (numberOfLines : Nat) : List Char :=
  ("[" ++ actionStrings.getD action "" ++ "] Number of lines after action: "
    ++ Nat.repr numberOfLines).data

/-- `addActionToChangelog`: build `<dir>/<file>.changelog`, open it for
append (creating it if absent), re-read the target file for its current
line count, format the audit line, and append it. -/
def addActionToChangelog (fs : FS) (fileName : String) (action : Nat)
    (changelogDirectory : String) : FS × FMResult :=
  let path := changelogDirectory ++ "/" ++ getChangelogFileName fileName
  let fs1 := match fs path with
    | none => setFile fs path (some [])
    | some _ => fs
  match fs1 fileName with
  | none => (fs1, FMResult.failure FMError.notFound)
  | some cs =>
    appendLineToFile fs1 path (changelogLine action (getNumberOfLinesInFile cs))

/-- `resetChangelog`: removes the record at the fixed relative path
`sprintf(changelog_file_path, "changelog/%s", ...)`; the
`changelog_directory` parameter is never read. -/
def resetChangelog (fs : FS) (fileName : String)
    (changelogDirectory : String) : FS × FMResult :=
  let path := "changelog/" ++ getChangelogFileName fileName
  match fs path with
  | none => (fs, FMResult.failure FMError.notFound)
  | some _ => (setFile fs path none, FMResult.success)

/-- `showChangelog`: displays the record at the fixed relative path
`sprintf(changelog_file_path, "changelog/%s", ...)`; the
`changelog_directory` parameter is never read. Returns the displayed
content. -/
def showChangelog (fs : FS) (fileName : String)
    (changelogDirectory : String) : FMResult × List Char :=
  let path := "changelog/" ++ getChangelogFileName fileName
  match fs path with
  | none => (FMResult.failure FMError.notFound, [])
  | some cs => (FMResult.success, cs)

/-! ### Concrete example file systems used for witnesses and
counterexamples -/

/-- A file system holding one file `a.txt` with content `"a\nb\n"`. -/
def fsAB : FS := fun name =>
  if name = "a.txt" then some ('a' :: '\n' :: 'b' :: '\n' :: []) else none

/-- A file system holding one file `n.txt` with content `"\nb\n"` (a
file whose first character is a line-break). -/
def fsNB : FS := fun name =>
  if name = "n.txt" then some ('\n' :: 'b' :: '\n' :: []) else none

/-- A file system holding one file `f.txt` with content `"x\ny\nz\n"`. -/
def fsXYZ : FS := fun name =>
  if name = "f.txt" then some ('x' :: '\n' :: 'y' :: '\n' :: 'z' :: '\n' :: [])
  else none

/-- A file system holding `a.txt` (content `"x\n"`) and a leftover
scratch file `file.tmp` (content `"j"`). -/
def fsTmp : FS := fun name =>
  if name = "a.txt" then some ('x' :: '\n' :: [])
  else if name = "file.tmp" then some ('j' :: []) else none

/-- A file system holding one empty file `e.txt`. -/
def fsEmpty : FS := fun name =>
  if name = "e.txt" then some [] else none

/-- A file system holding `a.txt` (content `"x\ny\n"`) and a changelog
record for it with one existing entry line. -/
def fsLog : FS := fun name =>
  if name = "a.txt" then some ('x' :: '\n' :: 'y' :: '\n' :: [])
  else if name = "changelog/a.txt.changelog" then some ('o' :: '\n' :: [])
  else none

/-! ### Basic lemmas about the model -/

theorem setFile_self (fs : FS) (name : String) (v : Option (List Char)) :
    setFile fs name v name = v := by
  simp [setFile]

theorem setFile_ne (fs : FS) (name other : String) (v : Option (List Char))
    (h : other ≠ name) : setFile fs name v other = fs other := by
  simp [setFile, h]

theorem gnol_append (xs ys : List Char) :
    getNumberOfLinesInFile (xs ++ ys) =
      getNumberOfLinesInFile xs + getNumberOfLinesInFile ys := by
  induction xs with
  | nil => simp [getNumberOfLinesInFile]
  | cons c rest ih =>
    rw [List.cons_append, getNumberOfLinesInFile, ih, getNumberOfLinesInFile]
    omega

theorem gnol_eq_count (cs : List Char) :
    getNumberOfLinesInFile cs = cs.count '\n' := by
  induction cs with
  | nil => rfl
  | cons c rest ih =>
    rw [getNumberOfLinesInFile, ih, List.count_cons]
    rcases eq_or_ne c '\n' with h | h
    · subst h
      simp only [if_pos rfl, beq_self_eq_true, if_true]
      omega
    · simp [h, Ne.symm h]

theorem gnol_eq_zero (cs : List Char) (h : '\n' ∉ cs) :
    getNumberOfLinesInFile cs = 0 := by
  rw [gnol_eq_count]
  exact List.count_eq_zero.mpr h

theorem gnol_cons_ne (a : Char) (A : List Char) (ha : a ≠ '\n') :
    getNumberOfLinesInFile (a :: A) = getNumberOfLinesInFile A := by
  simp [getNumberOfLinesInFile, ha]

theorem insNext_ge (l : Int) (cs : List Char) : l ≤ insNext l cs := by
  cases cs with
  | nil => simp [insNext]
  | cons c rest =>
    simp only [insNext]
    split <;> omega

/-! ### The delete loop -/

theorem deleteCopyAux_copy (n : Int) :
    ∀ (A : List Char) (a : Char) (l : Int) (R : List Char),
      l + (getNumberOfLinesInFile A : Int) < n →
      deleteCopyAux n l (a :: (A ++ R)) =
        a :: (A ++ deleteCopyAux n (insNext (l + getNumberOfLinesInFile A) R) R) := by
  intro A
  induction A with
  | nil =>
    intro a l R h
    simp only [getNumberOfLinesInFile, List.nil_append, Nat.cast_zero, add_zero] at h ⊢
    rw [deleteCopyAux, if_pos (by omega)]
  | cons b B ih =>
    intro a l R h
    have hl : l ≠ n := by
      have h0 : (0 : Int) ≤ (getNumberOfLinesInFile (b :: B) : Int) :=
        Int.natCast_nonneg _
      omega
    rw [List.cons_append, deleteCopyAux, if_pos hl]
    have hnext : insNext l (b :: (B ++ R)) = if b = '\n' then l + 1 else l := by
      rw [insNext]
    rw [hnext]
    by_cases hb : b = '\n'
    · subst hb
      have hstep : getNumberOfLinesInFile ('\n' :: B) = 1 + getNumberOfLinesInFile B := by
        rw [getNumberOfLinesInFile, if_pos rfl]
      rw [if_pos rfl, ih '\n' (l + 1) R (by omega)]
      have harg : l + 1 + (getNumberOfLinesInFile B : Int) =
          l + (getNumberOfLinesInFile ('\n' :: B) : Int) := by omega
      rw [harg]
      simp
    · have hstep : getNumberOfLinesInFile (b :: B) = getNumberOfLinesInFile B := by
        rw [getNumberOfLinesInFile, if_neg hb]
        omega
      rw [if_neg hb, ih b l R (by omega)]
      have harg : l + (getNumberOfLinesInFile B : Int) =
          l + (getNumberOfLinesInFile (b :: B) : Int) := by omega
      rw [harg]
      simp

theorem deleteCopyAux_after (n : Int) :
    ∀ (C : List Char) (l : Int), n < l → deleteCopyAux n l C = C := by
  intro C
  induction C with
  | nil => intro l _; simp [deleteCopyAux]
  | cons c rest ih =>
    intro l h
    rw [deleteCopyAux, if_pos (by omega)]
    rw [ih _ (lt_of_lt_of_le h (insNext_ge l rest))]

theorem deleteCopyAux_skip (n : Int) :
    ∀ (B : List Char), '\n' ∉ B → ∀ (C : List Char),
      deleteCopyAux n (insNext n (B ++ '\n' :: C)) (B ++ '\n' :: C) =
        '\n' :: C := by
  intro B
  induction B with
  | nil =>
    intro _ C
    rw [List.nil_append]
    have h1 : insNext n ('\n' :: C) = n + 1 := by
      rw [insNext, if_pos rfl]
    rw [h1, deleteCopyAux, if_pos (by omega)]
    rw [deleteCopyAux_after n C _ (lt_of_lt_of_le (by omega) (insNext_ge (n + 1) C))]
  | cons b B ih =>
    intro hB C
    have hb : b ≠ '\n' := fun h => hB (h ▸ List.mem_cons_self b B)
    have hB' : '\n' ∉ B := fun h => hB (List.mem_cons_of_mem b h)
    rw [List.cons_append]
    have h1 : insNext n (b :: (B ++ '\n' :: C)) = n := by
      rw [insNext, if_neg hb]
    rw [h1, deleteCopyAux, if_neg (by simp)]
    exact ih hB' C

/-- General splice characterization of the delete loop: the head
character `a` is processed under line 1 and never enters the counter,
so no condition on it is needed; the decomposition's shown newline is
the one consumed when the counter first reaches `n`. -/
theorem deleteCopyAux_splice (n : Int) (a : Char) (A B C : List Char)
    (hB : '\n' ∉ B)
    (hn : n = (getNumberOfLinesInFile A : Int) + 2) :
    deleteCopyAux n 1 (a :: (A ++ '\n' :: (B ++ '\n' :: C))) =
      a :: (A ++ '\n' :: C) := by
  rw [deleteCopyAux_copy n A a 1 ('\n' :: (B ++ '\n' :: C)) (by omega)]
  have h1 : insNext (1 + (getNumberOfLinesInFile A : Int))
      ('\n' :: (B ++ '\n' :: C)) = n := by
    rw [insNext, if_pos rfl]
    omega
  rw [h1, deleteCopyAux, if_neg (by simp)]
  rw [deleteCopyAux_skip n B hB C]

theorem deleteCopyAux_master (n : Int) (a : Char) (A B C : List Char)
    (ha : a ≠ '\n') (hB : '\n' ∉ B)
    (hn : n = (getNumberOfLinesInFile (a :: A) : Int) + 2) :
    deleteCopyAux n 1 (a :: (A ++ '\n' :: (B ++ '\n' :: C))) =
      a :: (A ++ '\n' :: C) := by
  rw [gnol_cons_ne a A ha] at hn
  exact deleteCopyAux_splice n a A B C hB hn

/-! ### The insert loop -/

theorem insertCopyAux_copy (n : Int) (content : List Char) :
    ∀ (A : List Char) (a : Char) (l : Int) (R : List Char),
      l + (getNumberOfLinesInFile A : Int) < n →
      insertCopyAux n content l (a :: (A ++ R)) =
        a :: (A ++ insertCopyAux n content
          (insNext (l + getNumberOfLinesInFile A) R) R) := by
  intro A
  induction A with
  | nil =>
    intro a l R h
    simp only [getNumberOfLinesInFile, List.nil_append, Nat.cast_zero, add_zero] at h ⊢
    rw [insertCopyAux, if_pos (by omega)]
  | cons b B ih =>
    intro a l R h
    have hl : l ≠ n := by
      have h0 : (0 : Int) ≤ (getNumberOfLinesInFile (b :: B) : Int) :=
        Int.natCast_nonneg _
      omega
    rw [List.cons_append, insertCopyAux, if_pos hl]
    have hnext : insNext l (b :: (B ++ R)) = if b = '\n' then l + 1 else l := by
      rw [insNext]
    rw [hnext]
    by_cases hb : b = '\n'
    · subst hb
      have hstep : getNumberOfLinesInFile ('\n' :: B) = 1 + getNumberOfLinesInFile B := by
        rw [getNumberOfLinesInFile, if_pos rfl]
      rw [if_pos rfl, ih '\n' (l + 1) R (by omega)]
      have harg : l + 1 + (getNumberOfLinesInFile B : Int) =
          l + (getNumberOfLinesInFile ('\n' :: B) : Int) := by omega
      rw [harg]
      simp
    · have hstep : getNumberOfLinesInFile (b :: B) = getNumberOfLinesInFile B := by
        rw [getNumberOfLinesInFile, if_neg hb]
        omega
      rw [if_neg hb, ih b l R (by omega)]
      have harg : l + (getNumberOfLinesInFile B : Int) =
          l + (getNumberOfLinesInFile (b :: B) : Int) := by omega
      rw [harg]
      simp

theorem insertCopyAux_after (n : Int) (content : List Char) :
    ∀ (C : List Char) (l : Int), n < l → insertCopyAux n content l C = C := by
  intro C
  induction C with
  | nil => intro l _; simp [insertCopyAux]
  | cons c rest ih =>
    intro l h
    rw [insertCopyAux, if_pos (by omega)]
    rw [ih _ (lt_of_lt_of_le h (insNext_ge l rest))]

/-- General splice characterization of the insert loop: the head
character `a` is processed under line 1 and never enters the counter,
so no condition on it is needed; the decomposition's shown newline is
the one consumed (and re-emitted) when the counter first reaches `n`. -/
theorem insertCopyAux_splice (n : Int) (content : List Char) (a : Char)
    (A R : List Char)
    (hn : n = (getNumberOfLinesInFile A : Int) + 2) :
    insertCopyAux n content 1 (a :: (A ++ '\n' :: R)) =
      a :: (A ++ '\n' :: (content ++ '\n' :: R)) := by
  rw [insertCopyAux_copy n content A a 1 ('\n' :: R) (by omega)]
  have h1 : insNext (1 + (getNumberOfLinesInFile A : Int)) ('\n' :: R) = n := by
    rw [insNext, if_pos rfl]
    omega
  rw [h1, insertCopyAux, if_neg (by simp)]
  rw [if_pos (show n ≠ 1 by omega)]
  rw [insertCopyAux_after n content R _
    (lt_of_lt_of_le (by omega) (insNext_ge (n + 1) R))]
  simp

theorem insertCopyAux_master (n : Int) (content : List Char) (a : Char)
    (A R : List Char) (ha : a ≠ '\n')
    (hn : n = (getNumberOfLinesInFile (a :: A) : Int) + 2) :
    insertCopyAux n content 1 (a :: (A ++ '\n' :: R)) =
      a :: (A ++ '\n' :: (content ++ '\n' :: R)) := by
  rw [gnol_cons_ne a A ha] at hn
  exact insertCopyAux_splice n content a A R hn

/-! ### The show-line loop -/

theorem showLineAux_copy (n : Int) :
    ∀ (A : List Char) (a : Char) (l : Int) (R : List Char),
      l + (getNumberOfLinesInFile A : Int) < n →
      showLineAux n l (a :: (A ++ R)) =
        showLineAux n (insNext (l + getNumberOfLinesInFile A) R) R := by
  intro A
  induction A with
  | nil =>
    intro a l R h
    simp only [getNumberOfLinesInFile, List.nil_append, Nat.cast_zero, add_zero] at h ⊢
    rw [showLineAux, if_neg (by intro hc; omega)]
  | cons b B ih =>
    intro a l R h
    have hl : l ≠ n := by
      have h0 : (0 : Int) ≤ (getNumberOfLinesInFile (b :: B) : Int) :=
        Int.natCast_nonneg _
      omega
    rw [List.cons_append, showLineAux, if_neg (fun hc => hl hc.1)]
    have hnext : insNext l (b :: (B ++ R)) = if b = '\n' then l + 1 else l := by
      rw [insNext]
    rw [hnext]
    by_cases hb : b = '\n'
    · subst hb
      have hstep : getNumberOfLinesInFile ('\n' :: B) = 1 + getNumberOfLinesInFile B := by
        rw [getNumberOfLinesInFile, if_pos rfl]
      rw [if_pos rfl, ih '\n' (l + 1) R (by omega)]
      have harg : l + 1 + (getNumberOfLinesInFile B : Int) =
          l + (getNumberOfLinesInFile ('\n' :: B) : Int) := by omega
      rw [harg]
    · have hstep : getNumberOfLinesInFile (b :: B) = getNumberOfLinesInFile B := by
        rw [getNumberOfLinesInFile, if_neg hb]
        omega
      rw [if_neg hb, ih b l R (by omega)]
      have harg : l + (getNumberOfLinesInFile B : Int) =
          l + (getNumberOfLinesInFile (b :: B) : Int) := by omega
      rw [harg]

theorem showLineAux_after (n : Int) :
    ∀ (C : List Char) (l : Int), n < l → showLineAux n l C = [] := by
  intro C
  induction C with
  | nil => intro l _; simp [showLineAux]
  | cons c rest ih =>
    intro l h
    rw [showLineAux, if_neg (fun hc => by omega)]
    rw [ih _ (lt_of_lt_of_le h (insNext_ge l rest))]

theorem showLineAux_collect (n : Int) :
    ∀ (B : List Char), '\n' ∉ B → ∀ (C : List Char),
      showLineAux n (insNext n (B ++ '\n' :: C)) (B ++ '\n' :: C) = B := by
  intro B
  induction B with
  | nil =>
    intro _ C
    rw [List.nil_append]
    have h1 : insNext n ('\n' :: C) = n + 1 := by
      rw [insNext, if_pos rfl]
    rw [h1, showLineAux, if_neg (fun hc => by omega)]
    rw [showLineAux_after n C _ (lt_of_lt_of_le (by omega) (insNext_ge (n + 1) C))]
  | cons b B ih =>
    intro hB C
    have hb : b ≠ '\n' := fun h => hB (h ▸ List.mem_cons_self b B)
    have hB' : '\n' ∉ B := fun h => hB (List.mem_cons_of_mem b h)
    rw [List.cons_append]
    have h1 : insNext n (b :: (B ++ '\n' :: C)) = n := by
      rw [insNext, if_neg hb]
    rw [h1, showLineAux, if_pos ⟨rfl, hb⟩]
    rw [ih hB' C]

theorem showLineAux_master (n : Int) (a : Char) (A B C : List Char)
    (ha : a ≠ '\n') (hB : '\n' ∉ B)
    (hn : n = (getNumberOfLinesInFile (a :: A) : Int) + 2) :
    showLineAux n 1 (a :: (A ++ '\n' :: (B ++ '\n' :: C))) = B := by
  rw [gnol_cons_ne a A ha] at hn
  rw [showLineAux_copy n A a 1 ('\n' :: (B ++ '\n' :: C)) (by omega)]
  have h1 : insNext (1 + (getNumberOfLinesInFile A : Int))
      ('\n' :: (B ++ '\n' :: C)) = n := by
    rw [insNext, if_pos rfl]
    omega
  rw [h1, showLineAux, if_neg (by simp)]
  exact showLineAux_collect n B hB C

/-! ### The commit tail -/

theorem commitRewrite_eq (fs : FS) (f : String) (out cs : List Char)
    (hf : fs f = some cs) (hft : f ≠ TEMP_FILE_NAME) :
    commitRewrite fs f out =
      (setFile (setFile (setFile (setFile fs TEMP_FILE_NAME (some out)) f none)
        TEMP_FILE_NAME none) f (some out), FMResult.success) := by
  have h1 : setFile fs TEMP_FILE_NAME (some out) f = some cs := by
    rw [setFile_ne fs TEMP_FILE_NAME f (some out) hft, hf]
  have h2 : setFile (setFile fs TEMP_FILE_NAME (some out)) f none TEMP_FILE_NAME
      = some out := by
    rw [setFile_ne _ f TEMP_FILE_NAME none (fun h => hft h.symm), setFile_self]
  rw [commitRewrite]
  simp only [h1, h2]

theorem commitRewrite_snd (fs : FS) (f : String) (out cs : List Char)
    (hf : fs f = some cs) (hft : f ≠ TEMP_FILE_NAME) :
    (commitRewrite fs f out).2 = FMResult.success := by
  rw [commitRewrite_eq fs f out cs hf hft]

theorem commitRewrite_self (fs : FS) (f : String) (out cs : List Char)
    (hf : fs f = some cs) (hft : f ≠ TEMP_FILE_NAME) :
    (commitRewrite fs f out).1 f = some out := by
  rw [commitRewrite_eq fs f out cs hf hft]
  exact setFile_self _ f (some out)

/-! ### Unfolding lemmas for the file-level operations -/

theorem validateLineNumber_true (cs : List Char) (n : Int)
    (h : 1 ≤ n ∧ n ≤ (getNumberOfLinesInFile cs : Int)) :
    validateLineNumber cs n = true := by
  rw [validateLineNumber, if_neg (by omega)]

theorem validateLineNumber_false (cs : List Char) (n : Int)
    (h : n > (getNumberOfLinesInFile cs : Int) ∨ n < 1) :
    validateLineNumber cs n = false := by
  rw [validateLineNumber, if_pos h]

theorem insertLineInFile_valid (fs : FS) (f : String) (content cs : List Char)
    (n : Int) (hf : fs f = some cs)
    (hok : ¬(n > (getNumberOfLinesInFile cs : Int) ∨ n < 1)) :
    insertLineInFile fs f content n =
      commitRewrite fs f (insertCopyAux n content 1 cs) := by
  rw [insertLineInFile, hf]
  simp only [if_neg hok]

theorem insertLineInFile_invalid (fs : FS) (f : String) (content cs : List Char)
    (n : Int) (hf : fs f = some cs)
    (hbad : n > (getNumberOfLinesInFile cs : Int) ∨ n < 1) :
    insertLineInFile fs f content n =
      (fs, FMResult.failure FMError.lineOutOfRange) := by
  rw [insertLineInFile, hf]
  simp only [if_pos hbad]

theorem deleteLineFromFile_valid (fs : FS) (f : String) (cs : List Char)
    (n : Int) (hf : setFile fs TEMP_FILE_NAME (some []) f = some cs)
    (hv : validateLineNumber cs n = true) :
    deleteLineFromFile fs f n =
      commitRewrite (setFile fs TEMP_FILE_NAME (some [])) f
        (deleteCopyAux n 1 cs) := by
  rw [deleteLineFromFile]
  simp only [hf, hv, if_true]

theorem deleteLineFromFile_invalid (fs : FS) (f : String) (cs : List Char)
    (n : Int) (hf : setFile fs TEMP_FILE_NAME (some []) f = some cs)
    (hv : validateLineNumber cs n = false) :
    deleteLineFromFile fs f n =
      (setFile fs TEMP_FILE_NAME (some []),
        FMResult.failure FMError.lineOutOfRange) := by
  rw [deleteLineFromFile]
  simp only [hf, hv, Bool.false_eq_true, if_false]

theorem showLineFromFile_valid (fs : FS) (f : String) (cs : List Char)
    (n : Int) (hf : fs f = some cs) (hv : validateLineNumber cs n = true) :
    showLineFromFile fs f n = (FMResult.success, showLineAux n 1 cs) := by
  rw [showLineFromFile, hf]
  simp only [hv, if_true]

theorem showLineFromFile_invalid (fs : FS) (f : String) (cs : List Char)
    (n : Int) (hf : fs f = some cs) (hv : validateLineNumber cs n = false) :
    showLineFromFile fs f n = (FMResult.failure FMError.lineOutOfRange, []) := by
  rw [showLineFromFile, hf]
  simp only [hv, Bool.false_eq_true, if_false]

/-- Line count of a file of shape `a :: A ++ "\n" :: R` with `a` not a
newline. -/
theorem gnol_struct (a : Char) (A R : List Char) (ha : a ≠ '\n') :
    getNumberOfLinesInFile (a :: (A ++ '\n' :: R)) =
      getNumberOfLinesInFile A + 1 + getNumberOfLinesInFile R := by
  rw [gnol_cons_ne a _ ha, gnol_append, getNumberOfLinesInFile, if_pos rfl]
  omega

/-- Line count of a file of shape `a :: A ++ "\n" :: R` for an arbitrary
head character. -/
theorem gnol_cons_append (a : Char) (A R : List Char) :
    getNumberOfLinesInFile (a :: (A ++ '\n' :: R)) =
      (if a = '\n' then 1 else 0) +
        (getNumberOfLinesInFile A + 1 + getNumberOfLinesInFile R) := by
  have hnlR : getNumberOfLinesInFile ('\n' :: R) =
      1 + getNumberOfLinesInFile R := by
    rw [getNumberOfLinesInFile, if_pos rfl]
  rw [getNumberOfLinesInFile, gnol_append, hnlR]
  omega

/-! ### Claim C1 -/

/-- Claim C1 (corrected): for a target file whose first character is not
a line-break and a target line `n` with `2 ≤ n ≤ countLines` (the file
is `a :: A` = lines `1..n-1` without their last break, then `'\n'`, then
line `n` = `B`, then `'\n'`, then the rest `C`), `insertLineInFile`
succeeds, the new content (line-break free) occupies line `n`, the line
previously at `n` occupies `n + 1`, and copying of the original
characters resumes exactly at the original target line's first
character.  The claim's full range `1 ≤ n` is refuted at `n = 1` by the
separate counterexample, where the first character of the original first
line is lost. -/
theorem insertLine_amended
    (fs : FS) (f : String) (content : List Char) (n : Int)
    (a : Char) (A B C : List Char)
    (ha : a ≠ '\n') (hB : '\n' ∉ B) (hc : '\n' ∉ content)
    (hft : f ≠ TEMP_FILE_NAME)
    (hf : fs f = some (a :: (A ++ '\n' :: (B ++ '\n' :: C))))
    (hn : n = (getNumberOfLinesInFile (a :: A) : Int) + 2) :
    (insertLineInFile fs f content n).2 = FMResult.success ∧
    (insertLineInFile fs f content n).1 f =
      some (a :: (A ++ '\n' :: (content ++ '\n' :: (B ++ '\n' :: C)))) ∧
    showLineFromFile (insertLineInFile fs f content n).1 f n =
      (FMResult.success, content) ∧
    showLineFromFile (insertLineInFile fs f content n).1 f (n + 1) =
      (FMResult.success, B) ∧
    showLineFromFile fs f n = (FMResult.success, B) := by
  have hna : n = (getNumberOfLinesInFile A : Int) + 2 := by
    rwa [gnol_cons_ne a A ha] at hn
  have hgB : getNumberOfLinesInFile B = 0 := gnol_eq_zero B hB
  have hgc : getNumberOfLinesInFile content = 0 := gnol_eq_zero content hc
  have hgR : getNumberOfLinesInFile (B ++ '\n' :: C) =
      1 + getNumberOfLinesInFile C := by
    rw [gnol_append, getNumberOfLinesInFile, if_pos rfl]
    omega
  have hgcs : getNumberOfLinesInFile (a :: (A ++ '\n' :: (B ++ '\n' :: C))) =
      getNumberOfLinesInFile A + 2 + getNumberOfLinesInFile C := by
    rw [gnol_struct a A _ ha, hgR]
    omega
  have hok : ¬(n > (getNumberOfLinesInFile
      (a :: (A ++ '\n' :: (B ++ '\n' :: C))) : Int) ∨ n < 1) := by
    rw [hgcs]
    omega
  have hins := insertLineInFile_valid fs f content _ n hf hok
  have hout := insertCopyAux_master n content a A (B ++ '\n' :: C) ha hn
  have hnew : getNumberOfLinesInFile (content ++ '\n' :: (B ++ '\n' :: C)) =
      2 + getNumberOfLinesInFile C := by
    rw [gnol_append, getNumberOfLinesInFile, if_pos rfl, hgR, hgc]
    omega
  have hcg : getNumberOfLinesInFile
      (a :: (A ++ '\n' :: (content ++ '\n' :: (B ++ '\n' :: C)))) =
      getNumberOfLinesInFile A + 3 + getNumberOfLinesInFile C := by
    rw [gnol_struct a A _ ha, hnew]
    omega
  have hsucc : (insertLineInFile fs f content n).2 = FMResult.success := by
    rw [hins]
    exact commitRewrite_snd fs f _ _ hf hft
  have hself : (insertLineInFile fs f content n).1 f =
      some (a :: (A ++ '\n' :: (content ++ '\n' :: (B ++ '\n' :: C)))) := by
    rw [hins, hout]
    exact commitRewrite_self fs f _ _ hf hft
  refine ⟨hsucc, hself, ?_, ?_, ?_⟩
  · rw [showLineFromFile_valid _ f _ n hself
      (validateLineNumber_true _ n (by rw [hcg]; omega))]
    rw [showLineAux_master n a A content (B ++ '\n' :: C) ha hc hn]
  · rw [showLineFromFile_valid _ f _ (n + 1) hself
      (validateLineNumber_true _ (n + 1) (by rw [hcg]; omega))]
    have hshape : a :: (A ++ '\n' :: (content ++ '\n' :: (B ++ '\n' :: C))) =
        a :: ((A ++ '\n' :: content) ++ '\n' :: (B ++ '\n' :: C)) := by
      simp [List.append_assoc]
    have hn2 : n + 1 =
        (getNumberOfLinesInFile (a :: (A ++ '\n' :: content)) : Int) + 2 := by
      rw [gnol_cons_ne a _ ha, gnol_append, getNumberOfLinesInFile, if_pos rfl, hgc]
      push_cast
      omega
    rw [hshape]
    rw [showLineAux_master (n + 1) a (A ++ '\n' :: content) B C ha hB hn2]
  · rw [showLineFromFile_valid fs f _ n hf
      (validateLineNumber_true _ n (by rw [hgcs]; omega))]
    rw [showLineAux_master n a A B C ha hB hn]

/-- Claim C1 counterexample: in `fsAB` the file `a.txt` holds
`"a\nb\n"`; inserting `"X"` at the valid line number 1 yields
`"X\n\nb\n"`, not `"X\na\nb\n"`: the first character of the original
line 1 is dropped, so the line previously at 1 (which was `"a"`) does
not occupy line 2 (which is empty), refuting the claim at `n = 1`. -/
theorem insertLine_line_one_cex :
    (insertLineInFile fsAB "a.txt" ('X' :: []) 1).1 "a.txt" =
      some ('X' :: '\n' :: '\n' :: 'b' :: '\n' :: []) ∧
    ('X' :: '\n' :: '\n' :: 'b' :: '\n' :: [] : List Char) ≠
      'X' :: '\n' :: 'a' :: '\n' :: 'b' :: '\n' :: [] ∧
    (showLineFromFile (insertLineInFile fsAB "a.txt" ('X' :: []) 1).1
      "a.txt" 2).2 = [] ∧
    (showLineFromFile fsAB "a.txt" 1).2 = 'a' :: [] := by
  decide

/-- Witness for `insertLine_amended`: inserting `"X"` at line 2 of
`"x\ny\nz\n"` yields `"x\nX\ny\nz\n"`; reading line 2 gives `"X"` and
line 3 gives the old line 2 = `"y"`. -/
theorem insertLine_amended_witness :
    (insertLineInFile fsXYZ "f.txt" ('X' :: []) 2).2 = FMResult.success ∧
    (insertLineInFile fsXYZ "f.txt" ('X' :: []) 2).1 "f.txt" =
      some ('x' :: '\n' :: 'X' :: '\n' :: 'y' :: '\n' :: 'z' :: '\n' :: []) ∧
    showLineFromFile (insertLineInFile fsXYZ "f.txt" ('X' :: []) 2).1
      "f.txt" 2 = (FMResult.success, 'X' :: []) ∧
    showLineFromFile (insertLineInFile fsXYZ "f.txt" ('X' :: []) 2).1
      "f.txt" 3 = (FMResult.success, 'y' :: []) ∧
    showLineFromFile fsXYZ "f.txt" 2 = (FMResult.success, 'y' :: []) := by
  exact insertLine_amended fsXYZ "f.txt" ('X' :: []) 2 'x' [] ('y' :: [])
    ('z' :: '\n' :: []) (by decide) (by decide) (by decide) (by decide)
    (by decide) (by decide)

/-! ### Claim C2 -/

/-- Claim C2 (corrected): for every target line `n` with
`2 ≤ n ≤ countLines` and line-break free content,
`insertLineInFile(f, c, n)` followed by `deleteLineFromFile(f, n)`
restores `f`'s original content byte-for-byte — for every file,
including files whose first character is a line-break (the file is
decomposed as `a :: A`, the characters before the line-break consumed
when the line counter first reaches `n`, then that `'\n'`, then the rest
`R`; such a decomposition exists for every file and every valid
`n ≥ 2`).  The claim's full range `1 ≤ n` is refuted at `n = 1` by the
separate counterexample (the insert at line 1 already loses the first
character of the file). -/
theorem insert_delete_roundtrip
    (fs : FS) (f : String) (content : List Char) (n : Int)
    (a : Char) (A R : List Char)
    (hc : '\n' ∉ content) (hft : f ≠ TEMP_FILE_NAME)
    (hf : fs f = some (a :: (A ++ '\n' :: R)))
    (hn : n = (getNumberOfLinesInFile A : Int) + 2)
    (hval : n ≤ (getNumberOfLinesInFile (a :: (A ++ '\n' :: R)) : Int)) :
    (insertLineInFile fs f content n).2 = FMResult.success ∧
    (deleteLineFromFile (insertLineInFile fs f content n).1 f n).2 =
      FMResult.success ∧
    (deleteLineFromFile (insertLineInFile fs f content n).1 f n).1 f =
      fs f := by
  have hok : ¬(n > (getNumberOfLinesInFile (a :: (A ++ '\n' :: R)) : Int)
      ∨ n < 1) := by omega
  have hins := insertLineInFile_valid fs f content _ n hf hok
  have hout := insertCopyAux_splice n content a A R hn
  have hsucc : (insertLineInFile fs f content n).2 = FMResult.success := by
    rw [hins]
    exact commitRewrite_snd fs f _ _ hf hft
  have hself : (insertLineInFile fs f content n).1 f =
      some (a :: (A ++ '\n' :: (content ++ '\n' :: R))) := by
    rw [hins, hout]
    exact commitRewrite_self fs f _ _ hf hft
  have hf2 : setFile (insertLineInFile fs f content n).1 TEMP_FILE_NAME
      (some []) f = some (a :: (A ++ '\n' :: (content ++ '\n' :: R))) := by
    rw [setFile_ne _ _ _ _ hft]
    exact hself
  have h3 : getNumberOfLinesInFile (content ++ '\n' :: R) =
      1 + getNumberOfLinesInFile R := by
    rw [gnol_append, gnol_eq_zero content hc, getNumberOfLinesInFile,
      if_pos rfl]
    omega
  have h1 := gnol_cons_append a A R
  have h2 := gnol_cons_append a A (content ++ '\n' :: R)
  rw [h3] at h2
  have hv : validateLineNumber (a :: (A ++ '\n' :: (content ++ '\n' :: R))) n
      = true :=
    validateLineNumber_true _ n (by omega)
  have hdel := deleteLineFromFile_valid (insertLineInFile fs f content n).1
    f _ n hf2 hv
  have hdout := deleteCopyAux_splice n a A content R hc hn
  refine ⟨hsucc, ?_, ?_⟩
  · rw [hdel]
    exact commitRewrite_snd _ f _ _ hf2 hft
  · rw [hdel, hdout]
    rw [commitRewrite_self _ f _ _ hf2 hft, hf]

/-- Claim C2 counterexample: in `fsAB` the file `a.txt` holds
`"a\nb\n"`; inserting `"X"` at the valid line number 1 and then deleting
line 1 yields `"\n\nb\n"`, not the original `"a\nb\n"`, refuting the
round trip at `n = 1`. -/
theorem roundtrip_line_one_cex :
    (deleteLineFromFile (insertLineInFile fsAB "a.txt" ('X' :: []) 1).1
      "a.txt" 1).1 "a.txt" = some ('\n' :: '\n' :: 'b' :: '\n' :: []) ∧
    fsAB "a.txt" = some ('a' :: '\n' :: 'b' :: '\n' :: []) ∧
    ('\n' :: '\n' :: 'b' :: '\n' :: [] : List Char) ≠
      'a' :: '\n' :: 'b' :: '\n' :: [] := by
  decide

/-- Witness for `insert_delete_roundtrip`: inserting `"X"` at line 2 of
`"x\ny\nz\n"` and deleting line 2 again restores the file; the same
round trip also restores `"\nb\n"`, a file whose first character is a
line-break. -/
theorem insert_delete_roundtrip_witness :
    ((insertLineInFile fsXYZ "f.txt" ('X' :: []) 2).2 = FMResult.success ∧
     (deleteLineFromFile (insertLineInFile fsXYZ "f.txt" ('X' :: []) 2).1
       "f.txt" 2).2 = FMResult.success ∧
     (deleteLineFromFile (insertLineInFile fsXYZ "f.txt" ('X' :: []) 2).1
       "f.txt" 2).1 "f.txt" = fsXYZ "f.txt") ∧
    ((insertLineInFile fsNB "n.txt" ('X' :: []) 2).2 = FMResult.success ∧
     (deleteLineFromFile (insertLineInFile fsNB "n.txt" ('X' :: []) 2).1
       "n.txt" 2).2 = FMResult.success ∧
     (deleteLineFromFile (insertLineInFile fsNB "n.txt" ('X' :: []) 2).1
       "n.txt" 2).1 "n.txt" = fsNB "n.txt") := by
  constructor
  · exact insert_delete_roundtrip fsXYZ "f.txt" ('X' :: []) 2 'x' []
      ('y' :: '\n' :: 'z' :: '\n' :: []) (by decide) (by decide) (by decide)
      (by decide) (by decide)
  · exact insert_delete_roundtrip fsNB "n.txt" ('X' :: []) 2 '\n'
      ('b' :: []) [] (by decide) (by decide) (by decide) (by decide)
      (by decide)

/-! ### Claim C3 -/

/-- Claim C3 (corrected): for a target line `n` with
`2 ≤ n ≤ lineCount` and a first line that is nonempty,
`deleteLineFromFile(f, n)` succeeds, the result is the original with
line `n`'s content and one adjacent line-break removed, and the line
count drops by exactly one.  The claim's full range `1 ≤ n` is refuted
at `n = 1` by the separate counterexample (the line's content is blanked
but its line-break survives, so the count does not drop). -/
theorem deleteLine_amended
    (fs : FS) (f : String) (n : Int) (a : Char) (A B C : List Char)
    (ha : a ≠ '\n') (hB : '\n' ∉ B) (hft : f ≠ TEMP_FILE_NAME)
    (hf : fs f = some (a :: (A ++ '\n' :: (B ++ '\n' :: C))))
    (hn : n = (getNumberOfLinesInFile (a :: A) : Int) + 2) :
    (deleteLineFromFile fs f n).2 = FMResult.success ∧
    (deleteLineFromFile fs f n).1 f = some (a :: (A ++ '\n' :: C)) ∧
    getNumberOfLinesInFile (a :: (A ++ '\n' :: C)) =
      getNumberOfLinesInFile (a :: (A ++ '\n' :: (B ++ '\n' :: C))) - 1 := by
  have hna : n = (getNumberOfLinesInFile A : Int) + 2 := by
    rwa [gnol_cons_ne a A ha] at hn
  have hgR : getNumberOfLinesInFile (B ++ '\n' :: C) =
      1 + getNumberOfLinesInFile C := by
    rw [gnol_append, gnol_eq_zero B hB, getNumberOfLinesInFile, if_pos rfl]
    omega
  have hgcs : getNumberOfLinesInFile (a :: (A ++ '\n' :: (B ++ '\n' :: C))) =
      getNumberOfLinesInFile A + 2 + getNumberOfLinesInFile C := by
    rw [gnol_struct a A _ ha, hgR]
    omega
  have hf2 : setFile fs TEMP_FILE_NAME (some []) f =
      some (a :: (A ++ '\n' :: (B ++ '\n' :: C))) := by
    rw [setFile_ne _ _ _ _ hft]
    exact hf
  have hv : validateLineNumber (a :: (A ++ '\n' :: (B ++ '\n' :: C))) n
      = true :=
    validateLineNumber_true _ n (by rw [hgcs]; omega)
  have hdel := deleteLineFromFile_valid fs f _ n hf2 hv
  have hdout := deleteCopyAux_master n a A B C ha hB hn
  refine ⟨?_, ?_, ?_⟩
  · rw [hdel]
    exact commitRewrite_snd _ f _ _ hf2 hft
  · rw [hdel, hdout]
    exact commitRewrite_self _ f _ _ hf2 hft
  · rw [hgcs, gnol_struct a A C ha]
    omega

/-- Claim C3 counterexample: deleting the valid line number 1 from
`"x\ny\nz\n"` yields `"\ny\nz\n"`: the deleted line's trailing
line-break is still present and the line count is still 3, not
`3 - 1 = 2`, refuting the claim at `n = 1`. -/
theorem deleteLine_line_one_cex :
    (deleteLineFromFile fsXYZ "f.txt" 1).1 "f.txt" =
      some ('\n' :: 'y' :: '\n' :: 'z' :: '\n' :: []) ∧
    getNumberOfLinesInFile ('\n' :: 'y' :: '\n' :: 'z' :: '\n' :: []) = 3 ∧
    getNumberOfLinesInFile
      ('x' :: '\n' :: 'y' :: '\n' :: 'z' :: '\n' :: []) = 3 := by
  decide

/-- Witness for `deleteLine_amended`: the claim's own scenario,
`deleteLine(f, 2)` on `"x\ny\nz\n"` yielding `"x\nz\n"` with line count
`3 - 1 = 2`. -/
theorem deleteLine_amended_witness :
    (deleteLineFromFile fsXYZ "f.txt" 2).2 = FMResult.success ∧
    (deleteLineFromFile fsXYZ "f.txt" 2).1 "f.txt" =
      some ('x' :: '\n' :: 'z' :: '\n' :: []) ∧
    getNumberOfLinesInFile ('x' :: '\n' :: 'z' :: '\n' :: []) =
      getNumberOfLinesInFile
        ('x' :: '\n' :: 'y' :: '\n' :: 'z' :: '\n' :: []) - 1 := by
  exact deleteLine_amended fsXYZ "f.txt" 2 'x' [] ('y' :: [])
    ('z' :: '\n' :: []) (by decide) (by decide) (by decide) (by decide)
    (by decide)

/-! ### Claim C4 -/

/-- Claim C4 (corrected): `insertLineInFile` follows the order
Open-Source, Validate, Open-Scratch, ..., so a validation failure leaves
the whole file system untouched; but `deleteLineFromFile` opens
(creates/truncates) the scratch file *before* validating, so a
validation failure leaves the scratch file truncated to empty — the
source file itself is untouched in both cases.  The claimed order for
`deleteLineFromFile` is refuted by the separate counterexample. -/
theorem rewrite_validate_failure
    (fs : FS) (f : String) (content cs : List Char) (n : Int)
    (hf : fs f = some cs) (hft : f ≠ TEMP_FILE_NAME)
    (hbad : n > (getNumberOfLinesInFile cs : Int) ∨ n < 1) :
    insertLineInFile fs f content n =
      (fs, FMResult.failure FMError.lineOutOfRange) ∧
    deleteLineFromFile fs f n =
      (setFile fs TEMP_FILE_NAME (some []),
        FMResult.failure FMError.lineOutOfRange) ∧
    (deleteLineFromFile fs f n).1 f = fs f := by
  have h1 := insertLineInFile_invalid fs f content cs n hf hbad
  have hf2 : setFile fs TEMP_FILE_NAME (some []) f = some cs := by
    rw [setFile_ne _ _ _ _ hft]
    exact hf
  have h2 := deleteLineFromFile_invalid fs f cs n hf2
    (validateLineNumber_false cs n hbad)
  refine ⟨h1, h2, ?_⟩
  rw [h2]
  exact setFile_ne fs TEMP_FILE_NAME f (some []) hft

/-- Claim C4 counterexample: in `fsTmp` a stale scratch file `file.tmp`
holds `"j"`; `deleteLineFromFile fsTmp "a.txt" 5` fails validation (the
file has 1 line), yet afterwards the scratch file has been truncated to
empty — on-disk state was mutated before the Validate step — whereas the
same failing `insertLineInFile` call leaves the scratch file alone. -/
theorem delete_scratch_before_validate_cex :
    (deleteLineFromFile fsTmp "a.txt" 5).2 =
      FMResult.failure FMError.lineOutOfRange ∧
    (deleteLineFromFile fsTmp "a.txt" 5).1 "file.tmp" = some [] ∧
    fsTmp "file.tmp" = some ('j' :: []) ∧
    (insertLineInFile fsTmp "a.txt" ('X' :: []) 5).1 "file.tmp" =
      some ('j' :: []) := by
  decide

/-- Witness for `rewrite_validate_failure` at the concrete input
`fsTmp`, `n = 0`. -/
theorem rewrite_validate_failure_witness :
    insertLineInFile fsTmp "a.txt" ('X' :: []) 0 =
      (fsTmp, FMResult.failure FMError.lineOutOfRange) ∧
    deleteLineFromFile fsTmp "a.txt" 0 =
      (setFile fsTmp TEMP_FILE_NAME (some []),
        FMResult.failure FMError.lineOutOfRange) ∧
    (deleteLineFromFile fsTmp "a.txt" 0).1 "a.txt" = fsTmp "a.txt" := by
  exact rewrite_validate_failure fsTmp "a.txt" ('X' :: []) ('x' :: '\n' :: [])
    0 (by decide) (by decide) (by decide)

/-! ### Claim C5 -/

/-- Claim C5 (confirmed): for every existing file, `insertLineInFile`,
`deleteLineFromFile` and `showLineFromFile` fail with a LineOutOfRange
error for every `n < 1` or `n > countLines` (covering `n = 0`,
`n = lineCount + 1` and negative `n`); and on a file with 0 lines
`insertLineInFile` at line 1 fails, so no line can ever be inserted into
an empty file. -/
theorem line_out_of_range_spec
    (fs : FS) (f : String) (cs : List Char) (hf : fs f = some cs) :
    (∀ n : Int, n < 1 ∨ n > (getNumberOfLinesInFile cs : Int) →
      ∀ content : List Char,
        (insertLineInFile fs f content n).2 =
          FMResult.failure FMError.lineOutOfRange ∧
        (deleteLineFromFile fs f n).2 =
          FMResult.failure FMError.lineOutOfRange ∧
        (showLineFromFile fs f n).1 =
          FMResult.failure FMError.lineOutOfRange) ∧
    (getNumberOfLinesInFile cs = 0 →
      ∀ content : List Char,
        (insertLineInFile fs f content 1).2 =
          FMResult.failure FMError.lineOutOfRange) := by
  constructor
  · intro n hbad content
    have hbad' : n > (getNumberOfLinesInFile cs : Int) ∨ n < 1 := hbad.symm
    refine ⟨?_, ?_, ?_⟩
    · rw [insertLineInFile_invalid fs f content cs n hf hbad']
    · by_cases hfT : f = TEMP_FILE_NAME
      · subst hfT
        have hf2 : setFile fs TEMP_FILE_NAME (some []) TEMP_FILE_NAME =
            some [] := setFile_self fs TEMP_FILE_NAME (some [])
        have hz : getNumberOfLinesInFile ([] : List Char) = 0 := rfl
        have h0 : (0 : Int) ≤ (getNumberOfLinesInFile cs : Int) :=
          Int.natCast_nonneg _
        have hbad2 : n > (getNumberOfLinesInFile ([] : List Char) : Int) ∨
            n < 1 := by
          rw [hz]
          rcases hbad with h | h
          · right; exact h
          · left; omega
        rw [deleteLineFromFile_invalid fs TEMP_FILE_NAME [] n hf2
          (validateLineNumber_false [] n hbad2)]
      · have hf2 : setFile fs TEMP_FILE_NAME (some []) f = some cs := by
          rw [setFile_ne _ _ _ _ hfT]
          exact hf
        rw [deleteLineFromFile_invalid fs f cs n hf2
          (validateLineNumber_false cs n hbad')]
    · rw [showLineFromFile_invalid fs f cs n hf
        (validateLineNumber_false cs n hbad')]
  · intro h0 content
    rw [insertLineInFile_invalid fs f content cs 1 hf (by omega)]

/-- Witness for `line_out_of_range_spec`: `n = 0`, `n = lineCount + 1`
and `n = -1` on `"a\nb\n"`, and the empty-file scenario on `e.txt`. -/
theorem line_out_of_range_witness :
    (insertLineInFile fsAB "a.txt" ('c' :: []) 0).2 =
      FMResult.failure FMError.lineOutOfRange ∧
    (deleteLineFromFile fsAB "a.txt" 3).2 =
      FMResult.failure FMError.lineOutOfRange ∧
    (showLineFromFile fsAB "a.txt" (-1)).1 =
      FMResult.failure FMError.lineOutOfRange ∧
    (insertLineInFile fsEmpty "e.txt" ('h' :: []) 1).2 =
      FMResult.failure FMError.lineOutOfRange := by
  refine ⟨?_, ?_, ?_, ?_⟩
  · exact ((line_out_of_range_spec fsAB "a.txt"
      ('a' :: '\n' :: 'b' :: '\n' :: []) (by decide)).1 0 (by decide)
      ('c' :: [])).1
  · exact ((line_out_of_range_spec fsAB "a.txt"
      ('a' :: '\n' :: 'b' :: '\n' :: []) (by decide)).1 3 (by decide) []).2.1
  · exact ((line_out_of_range_spec fsAB "a.txt"
      ('a' :: '\n' :: 'b' :: '\n' :: []) (by decide)).1 (-1) (by decide)
      []).2.2
  · exact (line_out_of_range_spec fsEmpty "e.txt" [] (by decide)).2
      (by decide) ('h' :: [])

/-! ### Claim C6 -/

/-- Claim C6 (confirmed): for every content, `getNumberOfLinesInFile`
equals exactly the number of line-break characters in the content;
consequently a content with no line-break characters counts as 0 lines
even if non-empty, and a final line without a trailing line-break is not
counted. -/
theorem count_lines_spec :
    (∀ cs : List Char, getNumberOfLinesInFile cs = cs.count '\n') ∧
    (∀ cs : List Char, cs ≠ [] → '\n' ∉ cs →
      getNumberOfLinesInFile cs = 0) ∧
    (∀ cs t : List Char, '\n' ∉ t →
      getNumberOfLinesInFile (cs ++ t) = getNumberOfLinesInFile cs) := by
  refine ⟨gnol_eq_count, ?_, ?_⟩
  · intro cs _ h
    exact gnol_eq_zero cs h
  · intro cs t ht
    rw [gnol_append, gnol_eq_zero t ht]
    omega

/-- Witness for `count_lines_spec`: the non-empty newline-free content
`"ab"` counts 0 lines, and appending the unterminated final line `"z"`
to `"x\n"` does not change the count. -/
theorem count_lines_witness :
    getNumberOfLinesInFile ('a' :: 'b' :: []) =
      ('a' :: 'b' :: [] : List Char).count '\n' ∧
    getNumberOfLinesInFile ('a' :: 'b' :: []) = 0 ∧
    getNumberOfLinesInFile (('x' :: '\n' :: []) ++ ('z' :: [])) =
      getNumberOfLinesInFile ('x' :: '\n' :: []) := by
  refine ⟨count_lines_spec.1 _,
    count_lines_spec.2.1 _ (by decide) (by decide),
    count_lines_spec.2.2 _ _ (by decide)⟩

/-! ### Claim C8 -/

/-- Claim C8 (confirmed): `copyFile(source, dest)` fails with
AlreadyExists when `dest` exists and with NotFound when `source` is
missing — creating nothing in either failure case — and otherwise
creates `dest` with exactly `source`'s byte content, leaving `source`
unchanged. -/
theorem copyFile_spec (fs : FS) (src dst : String) :
    (∀ d, fs dst = some d →
      copyFile fs src dst = (fs, FMResult.failure FMError.alreadyExists)) ∧
    (fs dst = none → fs src = none →
      copyFile fs src dst = (fs, FMResult.failure FMError.notFound)) ∧
    (∀ cs, fs dst = none → fs src = some cs →
      (copyFile fs src dst).2 = FMResult.success ∧
      (copyFile fs src dst).1 dst = some cs ∧
      (copyFile fs src dst).1 src = some cs ∧
      (∀ x, x ≠ dst → (copyFile fs src dst).1 x = fs x)) := by
  refine ⟨?_, ?_, ?_⟩
  · intro d hd
    rw [copyFile]
    have hex : fileExists fs dst = true := by
      rw [fileExists, hd]
      rfl
    rw [if_pos hex]
  · intro hdst hsrc
    rw [copyFile]
    have hex : fileExists fs dst = false := by
      rw [fileExists, hdst]
      rfl
    rw [hex]
    simp only [Bool.false_eq_true, if_false, hsrc]
  · intro cs hdst hsrc
    have hne : src ≠ dst := by
      intro h
      rw [h, hdst] at hsrc
      exact Option.noConfusion hsrc
    have heq : copyFile fs src dst =
        (setFile fs dst (some cs), FMResult.success) := by
      rw [copyFile]
      have hex : fileExists fs dst = false := by
        rw [fileExists, hdst]
        rfl
      rw [hex]
      simp only [Bool.false_eq_true, if_false, hsrc, getFileContents]
    refine ⟨by rw [heq], ?_, ?_, ?_⟩
    · rw [heq]
      exact setFile_self fs dst (some cs)
    · rw [heq]
      show setFile fs dst (some cs) src = some cs
      rw [setFile_ne fs dst src (some cs) hne]
      exact hsrc
    · intro x hx
      rw [heq]
      exact setFile_ne fs dst x (some cs) hx

/-- Witness for `copyFile_spec`: copying onto the existing `a.txt`
fails AlreadyExists; copying from a missing source fails NotFound and
creates nothing; copying `f.txt` to `g.txt` duplicates its bytes. -/
theorem copyFile_witness :
    copyFile fsXYZ "f.txt" "f.txt" =
      (fsXYZ, FMResult.failure FMError.alreadyExists) ∧
    copyFile fsXYZ "nope.txt" "g.txt" =
      (fsXYZ, FMResult.failure FMError.notFound) ∧
    (copyFile fsXYZ "f.txt" "g.txt").2 = FMResult.success ∧
    (copyFile fsXYZ "f.txt" "g.txt").1 "g.txt" =
      some ('x' :: '\n' :: 'y' :: '\n' :: 'z' :: '\n' :: []) ∧
    (copyFile fsXYZ "f.txt" "g.txt").1 "f.txt" =
      some ('x' :: '\n' :: 'y' :: '\n' :: 'z' :: '\n' :: []) := by
  refine ⟨(copyFile_spec fsXYZ "f.txt" "f.txt").1
      ('x' :: '\n' :: 'y' :: '\n' :: 'z' :: '\n' :: []) (by decide),
    (copyFile_spec fsXYZ "nope.txt" "g.txt").2.1 (by decide) (by decide),
    ?_, ?_, ?_⟩
  · exact ((copyFile_spec fsXYZ "f.txt" "g.txt").2.2
      ('x' :: '\n' :: 'y' :: '\n' :: 'z' :: '\n' :: []) (by decide)
      (by decide)).1
  · exact ((copyFile_spec fsXYZ "f.txt" "g.txt").2.2
      ('x' :: '\n' :: 'y' :: '\n' :: 'z' :: '\n' :: []) (by decide)
      (by decide)).2.1
  · exact ((copyFile_spec fsXYZ "f.txt" "g.txt").2.2
      ('x' :: '\n' :: 'y' :: '\n' :: 'z' :: '\n' :: []) (by decide)
      (by decide)).2.2.1

/-! ### Claim C9 -/

theorem appendLineToFile_eq (fs : FS) (f : String) (content cs : List Char)
    (hf : fs f = some cs) :
    appendLineToFile fs f content =
      (setFile fs f (some (cs ++ content ++ ['\n'])), FMResult.success) := by
  rw [appendLineToFile, hf]

/-- Claim C9 (confirmed): on an existing file, `appendLineToFile`
succeeds and appends exactly the content followed by one line-break,
leaving all earlier bytes unchanged; with line-break free content the
line count grows by exactly one; on a missing file it fails and creates
nothing. -/
theorem appendLine_spec (fs : FS) (f : String) (content : List Char) :
    (∀ cs, fs f = some cs →
      appendLineToFile fs f content =
        (setFile fs f (some (cs ++ content ++ ['\n'])), FMResult.success) ∧
      (∀ x, x ≠ f → (appendLineToFile fs f content).1 x = fs x) ∧
      ('\n' ∉ content →
        getNumberOfLinesInFile (cs ++ content ++ ['\n']) =
          getNumberOfLinesInFile cs + 1)) ∧
    (fs f = none →
      appendLineToFile fs f content = (fs, FMResult.failure FMError.notFound)) := by
  constructor
  · intro cs hf
    have heq := appendLineToFile_eq fs f content cs hf
    refine ⟨heq, ?_, ?_⟩
    · intro x hx
      rw [heq]
      exact setFile_ne fs f x _ hx
    · intro hc
      have h1 : getNumberOfLinesInFile ('\n' :: []) = 1 := rfl
      rw [gnol_append, gnol_append, gnol_eq_zero content hc, h1]
  · intro hf
    rw [appendLineToFile, hf]

/-- Witness for `appendLine_spec`: appending `"c"` to `"a\nb\n"` yields
`"a\nb\nc\n"` (one more line); appending to a missing file fails. -/
theorem appendLine_witness :
    appendLineToFile fsAB "a.txt" ('c' :: []) =
      (setFile fsAB "a.txt"
        (some ('a' :: '\n' :: 'b' :: '\n' :: 'c' :: '\n' :: [])),
       FMResult.success) ∧
    getNumberOfLinesInFile ('a' :: '\n' :: 'b' :: '\n' :: 'c' :: '\n' :: []) =
      getNumberOfLinesInFile ('a' :: '\n' :: 'b' :: '\n' :: []) + 1 ∧
    appendLineToFile fsAB "missing.txt" ('c' :: []) =
      (fsAB, FMResult.failure FMError.notFound) := by
  have h := (appendLine_spec fsAB "a.txt" ('c' :: [])).1
    ('a' :: '\n' :: 'b' :: '\n' :: []) (by decide)
  exact ⟨h.1, h.2.2 (by decide),
    (appendLine_spec fsAB "missing.txt" ('c' :: [])).2 (by decide)⟩

/-! ### Claim C7 -/

theorem digitChar_ne_newline (m : Nat) (hm : m < 10) :
    Nat.digitChar m ≠ '\n' := by
  interval_cases m <;> decide

theorem toDigitsCore_ne_newline :
    ∀ (fuel n : Nat) (ds : List Char), (∀ c ∈ ds, c ≠ '\n') →
      ∀ c ∈ Nat.toDigitsCore 10 fuel n ds, c ≠ '\n' := by
  intro fuel
  induction fuel with
  | zero =>
    intro n ds hds c hc
    exact hds c hc
  | succ fuel ih =>
    intro n ds hds c hc
    have hstep : Nat.toDigitsCore 10 (fuel + 1) n ds =
        if n / 10 = 0 then Nat.digitChar (n % 10) :: ds
        else Nat.toDigitsCore 10 fuel (n / 10) (Nat.digitChar (n % 10) :: ds) := by
      rw [Nat.toDigitsCore]
    rw [hstep] at hc
    have hcons : ∀ c' ∈ Nat.digitChar (n % 10) :: ds, c' ≠ '\n' := by
      intro c' hc'
      rcases List.mem_cons.mp hc' with h | h
      · subst h
        exact digitChar_ne_newline _ (Nat.mod_lt n (by omega))
      · exact hds c' h
    by_cases h : n / 10 = 0
    · rw [if_pos h] at hc
      exact hcons c hc
    · rw [if_neg h] at hc
      exact ih (n / 10) _ hcons c hc

theorem repr_ne_newline (k : Nat) : '\n' ∉ (Nat.repr k).data := fun hmem =>
  toDigitsCore_ne_newline (k + 1) k []
    (fun c hc => absurd hc (List.not_mem_nil c)) '\n' hmem rfl

theorem actionLabel_ne_newline (a : Nat) :
    '\n' ∉ (actionStrings.getD a "").data := by
  rcases a with _ | _ | _ | _ | _ | _ | a
  · decide
  · decide
  · decide
  · decide
  · decide
  · decide
  · simp only [actionStrings, List.getD_cons_succ, List.getD_nil]
    decide

theorem changelogLine_no_newline (a k : Nat) : '\n' ∉ changelogLine a k := by
  rw [changelogLine]
  simp only [String.data_append]
  intro hmem
  rcases List.mem_append.mp hmem with hm | hm
  · rcases List.mem_append.mp hm with hm' | hm'
    · rcases List.mem_append.mp hm' with hm'' | hm''
      · exact absurd hm'' (by decide)
      · exact actionLabel_ne_newline a hm''
    · exact absurd hm' (by decide)
  · exact repr_ne_newline k hm

theorem gnol_changelogLine (a k : Nat) :
    getNumberOfLinesInFile (changelogLine a k) = 0 :=
  gnol_eq_zero _ (changelogLine_no_newline a k)

theorem changelogPath_ne (dir f : String) :
    dir ++ "/" ++ getChangelogFileName f ≠ f := by
  intro h
  have hlen := congrArg String.length h
  rw [String.length_append, String.length_append, getChangelogFileName,
    String.length_append] at hlen
  have h1 : ("/" : String).length = 1 := rfl
  have h2 : (".changelog" : String).length = 10 := rfl
  omega

theorem resetPath_ne (f : String) :
    "changelog/" ++ getChangelogFileName f ≠ f := by
  intro h
  have hlen := congrArg String.length h
  rw [String.length_append, getChangelogFileName, String.length_append] at hlen
  have h1 : ("changelog/" : String).length = 10 := rfl
  have h2 : (".changelog" : String).length = 10 := rfl
  omega

theorem changelog_dir_path (x : String) :
    ("changelog" : String) ++ "/" ++ x = "changelog/" ++ x := by
  rw [show ("changelog" : String) ++ "/" = "changelog/" from rfl]

theorem resetChangelog_clears (fs : FS) (f d : String) :
    (resetChangelog fs f d).1 ("changelog/" ++ getChangelogFileName f) =
      none := by
  rw [resetChangelog]
  cases h : fs ("changelog/" ++ getChangelogFileName f) with
  | none => simp only [h]
  | some v => simp only [h, setFile_self]

theorem resetChangelog_other (fs : FS) (f d x : String)
    (hx : x ≠ "changelog/" ++ getChangelogFileName f) :
    (resetChangelog fs f d).1 x = fs x := by
  rw [resetChangelog]
  cases h : fs ("changelog/" ++ getChangelogFileName f) with
  | none => simp only [h]
  | some v =>
    simp only [h]
    exact setFile_ne _ _ _ _ hx

theorem addAction_core (fs : FS) (f : String) (cs : List Char) (a : Nat)
    (d : String) (hf : fs f = some cs) :
    (addActionToChangelog fs f a d).2 = FMResult.success ∧
    (addActionToChangelog fs f a d).1 (d ++ "/" ++ getChangelogFileName f) =
      some (((fs (d ++ "/" ++ getChangelogFileName f)).getD []) ++
        changelogLine a (getNumberOfLinesInFile cs) ++ ['\n']) := by
  have hne : d ++ "/" ++ getChangelogFileName f ≠ f := changelogPath_ne d f
  cases h : fs (d ++ "/" ++ getChangelogFileName f) with
  | none =>
    have hf1 : setFile fs (d ++ "/" ++ getChangelogFileName f) (some []) f =
        some cs := by
      rw [setFile_ne _ _ _ _ (Ne.symm hne)]
      exact hf
    have happ := appendLineToFile_eq
      (setFile fs (d ++ "/" ++ getChangelogFileName f) (some []))
      (d ++ "/" ++ getChangelogFileName f)
      (changelogLine a (getNumberOfLinesInFile cs)) []
      (setFile_self _ _ _)
    rw [addActionToChangelog]
    simp only [h, hf1, happ]
    exact ⟨trivial, setFile_self _ _ _⟩
  | some v =>
    have happ := appendLineToFile_eq fs (d ++ "/" ++ getChangelogFileName f)
      (changelogLine a (getNumberOfLinesInFile cs)) v h
    rw [addActionToChangelog]
    simp only [h, hf, happ]
    exact ⟨trivial, setFile_self _ _ _⟩

/-- Claim C7 (confirmed): every successful `addActionToChangelog` call
appends exactly one line, of the exact form
`"[<ActionLabel>] Number of lines after action: <N>"`, to the changelog
record at `<dir>/<fileName>.changelog` (creating the record if absent),
where `<ActionLabel>` is one of the six fixed labels and `<N>` is the
line count freshly re-read from the target file; and `resetChangelog`
followed by one `addActionToChangelog` yields a record with exactly one
line. -/
theorem addAction_spec (fs : FS) (f : String) (cs : List Char) (a : Nat)
    (d : String) (hf : fs f = some cs) (ha : a < 6) :
    (addActionToChangelog fs f a d).2 = FMResult.success ∧
    (addActionToChangelog fs f a d).1 (d ++ "/" ++ getChangelogFileName f) =
      some (((fs (d ++ "/" ++ getChangelogFileName f)).getD []) ++
        changelogLine a (getNumberOfLinesInFile cs) ++ ['\n']) ∧
    getNumberOfLinesInFile
        (((fs (d ++ "/" ++ getChangelogFileName f)).getD []) ++
          changelogLine a (getNumberOfLinesInFile cs) ++ ['\n']) =
      getNumberOfLinesInFile ((fs (d ++ "/" ++ getChangelogFileName f)).getD [])
        + 1 ∧
    actionStrings.getD a "" ∈ actionStrings ∧
    (addActionToChangelog (resetChangelog fs f d).1 f a "changelog").1
        ("changelog/" ++ getChangelogFileName f) =
      some (changelogLine a (getNumberOfLinesInFile cs) ++ ['\n']) ∧
    getNumberOfLinesInFile
        (changelogLine a (getNumberOfLinesInFile cs) ++ ['\n']) = 1 := by
  have hcore := addAction_core fs f cs a d hf
  have hone : getNumberOfLinesInFile
      (changelogLine a (getNumberOfLinesInFile cs) ++ ['\n']) = 1 := by
    rw [gnol_append, gnol_changelogLine]
    rfl
  refine ⟨hcore.1, hcore.2, ?_, ?_, ?_, hone⟩
  · rw [show ((fs (d ++ "/" ++ getChangelogFileName f)).getD []) ++
        changelogLine a (getNumberOfLinesInFile cs) ++ ['\n'] =
        ((fs (d ++ "/" ++ getChangelogFileName f)).getD []) ++
        (changelogLine a (getNumberOfLinesInFile cs) ++ ['\n']) from by
      simp [List.append_assoc]]
    rw [gnol_append, hone]
  · rcases a with _ | _ | _ | _ | _ | _ | a
    · decide
    · decide
    · decide
    · decide
    · decide
    · decide
    · omega
  · have hsrc : (resetChangelog fs f d).1 f = some cs := by
      rw [resetChangelog_other fs f d f (Ne.symm (resetPath_ne f))]
      exact hf
    have hcore2 := addAction_core (resetChangelog fs f d).1 f cs a
      "changelog" hsrc
    have hpath : ("changelog" : String) ++ "/" ++ getChangelogFileName f =
        "changelog/" ++ getChangelogFileName f :=
      changelog_dir_path _
    rw [hpath] at hcore2
    rw [resetChangelog_clears fs f d] at hcore2
    exact hcore2.2

/-- Witness for `addAction_spec`: logging action 2 ("Deleted line") for
`a.txt` (content `"x\ny\n"`, 2 lines) appends exactly the line
`"[Deleted line] Number of lines after action: 2"` to the existing
record, and after a reset the record holds exactly that one line. -/
theorem addAction_witness :
    (addActionToChangelog fsLog "a.txt" 2 "changelog").2 =
      FMResult.success ∧
    (addActionToChangelog fsLog "a.txt" 2 "changelog").1
        ("changelog" ++ "/" ++ getChangelogFileName "a.txt") =
      some (('o' :: '\n' :: []) ++ changelogLine 2 2 ++ ['\n']) ∧
    getNumberOfLinesInFile
        (('o' :: '\n' :: []) ++ changelogLine 2 2 ++ ['\n']) =
      getNumberOfLinesInFile ('o' :: '\n' :: []) + 1 ∧
    actionStrings.getD 2 "" ∈ actionStrings ∧
    (addActionToChangelog (resetChangelog fsLog "a.txt" "changelog").1
        "a.txt" 2 "changelog").1
        ("changelog/" ++ getChangelogFileName "a.txt") =
      some (changelogLine 2 2 ++ ['\n']) ∧
    getNumberOfLinesInFile (changelogLine 2 2 ++ ['\n']) = 1 := by
  exact addAction_spec fsLog "a.txt" ('x' :: '\n' :: 'y' :: '\n' :: []) 2
    "changelog" (by decide) (by decide)

/-! ### Claim C10 -/

/-- Claim C10 (confirmed): the results and effects of `resetChangelog`
and `showChangelog` are identical for any two values of the
`changelogDirectory` argument: both operate on the fixed relative path
`"changelog/<fileName>.changelog"` and never read the parameter. -/
theorem changelog_dir_ignored (fs : FS) (fileName : String)
    (d1 d2 : String) :
    resetChangelog fs fileName d1 = resetChangelog fs fileName d2 ∧
    showChangelog fs fileName d1 = showChangelog fs fileName d2 :=
  ⟨rfl, rfl⟩

end FileManager
